import Mathlib

/-!
Verification of the yahoo-finance stock-data export pipeline.

The server side (`src/app/api/stock-data/route.ts`) exposes a `POST` handler
that validates the request, then sequentially processes each requested ticker
symbol: it waits a fixed delay, validates the symbol with a Provider `quote`
call, fetches `historical` rows, tags each row with its symbol, and after each
symbol writes one `progress` event to the response stream.  After the loop it
writes either an `error` event (no rows at all) or a `complete` event carrying
a CSV of the accumulated rows, and closes the stream writer.

The client side (`src/app/page.tsx`) splits the streamed text into blank-line
delimited blocks, takes the `event:` and `data:` lines of each block,
`JSON.parse`s the data line and dispatches on the event name.

This file embeds both sides as executable Lean definitions and proves the
spec's testable properties about them.
-/

namespace StockData

/-- One historical bar as returned by the Provider (`HistoricalDataItem` in
`route.ts`).  The handler never inspects the field values — they flow opaquely
into the CSV — so each is modelled by its serialized string form.  `adjClose`
is optional in the source (`adjClose?: number | undefined`). -/
structure HistoricalDataItem where
  date : String
  «open» : String
  high : String
  low : String
  close : String
  volume : String
  adjClose : Option String
  deriving DecidableEq

/-- A historical row tagged with the symbol it was fetched for
(`{...item, symbol}` at route.ts:70–73). -/
structure RowWithSymbol where
  item : HistoricalDataItem
  symbol : String
  deriving DecidableEq

/-- The external financial-data Provider (the yahoo-finance2 package, outside
src/).  `quote` may throw (`Except.error`), return a null/undefined value
(`Option.none`), or return a quote object whose contents the handler never
reads (`Option.some ()`).  `historical` may throw or return the row list. -/
structure Provider where
  quote : String → Except String (Option Unit)
  historical : String → Except String (List HistoricalDataItem)

/-- Outcome of the per-symbol try-block body (route.ts:60–74): the `quote`
call validates the symbol (`if (!quote) throw new Error('Invalid symbol')`),
then `historical` fetches the rows; a thrown error anywhere, or a null quote,
lands in the per-symbol catch, i.e. `none`. -/
def fetchSymbol (p : Provider) (symbol : String) : Option (List HistoricalDataItem) :=
  match p.quote symbol with
  | Except.error _ => none
  | Except.ok none => none
  | Except.ok (some _) =>
    match p.historical symbol with
    | Except.error _ => none
    | Except.ok result => some result

/-- An event block written to the stream: `progress` carries the
`ProgressUpdate` fields, `complete` carries the raw CSV text, `error` carries
the error message. -/
inductive Event where
  | progress (current total : Nat) (error : Option String)
  | complete (csv : String)
  | error (msg : String)
  deriving DecidableEq

/-- One observable act of the stream writer: writing an event block, or
closing the writer. -/
inductive Action where
  | write (e : Event)
  | close
  deriving DecidableEq

/-- The optional `error` field of a progress update (route.ts:85–87):
present exactly when some symbol has failed so far, listing all failed
symbols joined by comma + space. -/
def progressError (failedSymbols : List String) : Option String :=
  if failedSymbols.length > 0 then
    some ("Failed to fetch: " ++ String.intercalate ", " failedSymbols)
  else none

/-- The per-symbol loop (route.ts:59–93), threading `allResults`,
`processedCount` (argument `done`) and `failedSymbols` exactly as the source
does, and returning the writer actions performed together with the final
accumulator and failed-symbols list. -/
def symbolLoop (p : Provider) (total : Nat) :
    List String → Nat → List RowWithSymbol → List String →
    List Action × List RowWithSymbol × List String
  | [], _, allResults, failedSymbols => ([], allResults, failedSymbols)
  | symbol :: rest, done, allResults, failedSymbols =>
    let step :=
      match fetchSymbol p symbol with
      | some result =>
        (allResults ++ result.map (fun item => RowWithSymbol.mk item symbol), failedSymbols)
      | none => (allResults, failedSymbols ++ [symbol])
    let act := Action.write (Event.progress (done + 1) total (progressError step.2))
    let r := symbolLoop p total rest (done + 1) step.1 step.2
    (act :: r.1, r.2)

/-- The fixed CSV column order (route.ts:99). -/
def fields : List String :=
  ["symbol", "date", "open", "high", "low", "close", "volume", "adjClose"]

/-- Cell text of an optional value: an absent `adjClose` renders as the empty
cell. -/
def optCell : Option String → String
  | some v => v
  | none => ""

/-- The cells of one CSV data row, in the fixed field order. -/
def rowCells (r : RowWithSymbol) : List String :=
  [r.symbol, r.item.date, r.item.«open», r.item.high, r.item.low, r.item.close,
    r.item.volume, optCell r.item.adjClose]

/-- Modelled from the spec: the CSV table produced by the json2csv `Parser`
(an external library; the spec excludes its internals and fixes only
"fixed column order [symbol, date, open, high, low, close, volume,
adjClose]"): a header row of the field names followed by one row of cells per
accumulated data row. -/
def csvTable (rows : List RowWithSymbol) : List (List String) :=
  fields :: rows.map rowCells

/-- Join character lists with a separator. -/
def joinSep (sep : List Char) : List (List Char) → List Char
  | [] => []
  | [l] => l
  | l :: l2 :: ls => l ++ sep ++ joinSep sep (l2 :: ls)

/-- A quoted CSV cell. -/
def renderCell (s : String) : List Char := '"' :: s.data ++ ['"']

/-- One CSV line: quoted cells joined by commas. -/
def renderLine (cells : List String) : List Char :=
  joinSep [','] (cells.map renderCell)

/-- Modelled from the spec: full CSV text of the accumulator — newline-joined
lines, header first. -/
def csvChars (rows : List RowWithSymbol) : List Char :=
  joinSep ['\n'] ((csvTable rows).map renderLine)

/-- The CSV text as a string. -/
def csvOf (rows : List RowWithSymbol) : String := String.mk (csvChars rows)

/-- The streaming orchestration body (route.ts:47–113): run the symbol loop;
if the accumulator is empty, throw `No valid data retrieved for any symbols`,
otherwise serialize to CSV and write the `complete` event; the surrounding
catch converts any thrown message into an `error` event; every path then
closes the writer.  `serialize` abstracts the json2csv call, which can in
principle throw — the concrete handler instantiates it with `csvOf`. -/
def runStream (p : Provider) (symbols : List String)
    (serialize : List RowWithSymbol → Except String String) : List Action :=
  let r := symbolLoop p symbols.length symbols 0 [] []
  if r.2.1.length = 0 then
    r.1 ++ [Action.write (Event.error "No valid data retrieved for any symbols"), Action.close]
  else
    match serialize r.2.1 with
    | Except.ok csv => r.1 ++ [Action.write (Event.complete csv), Action.close]
    | Except.error msg => r.1 ++ [Action.write (Event.error msg), Action.close]

/-- The concrete streaming body of the handler. -/
def handlerStream (p : Provider) (symbols : List String) : List Action :=
  runStream p symbols (fun rows => Except.ok (csvOf rows))

/-- The parsed request body (`StockDataRequest` in route.ts).  Fields are
optional because the JSON body may omit them. -/
structure StockDataRequest where
  symbols : Option (List String)
  startDate : Option String
  endDate : Option String
  interval : String

/-- The handler's response: an immediate JSON response with a status code, or
a 200 event-stream response whose body performs the given writer actions. -/
inductive HandlerResponse where
  | jsonResp (status : Nat) (message : String)
  | streamResp (actions : List Action)
  deriving DecidableEq

/-- JS truthiness of an optional string: absent, null and `""` are falsy. -/
def truthy : Option String → Bool
  | none => false
  | some s => s ≠ ""

/-- The POST handler (route.ts:32–129) after JSON body parsing:
`!symbols?.length || !startDate || !endDate` rejects with 400 `Missing
required fields`; otherwise the streaming body runs and a 200 event-stream
response is returned.  The `interval` field is never validated. -/
def POST (p : Provider) (req : StockDataRequest) : HandlerResponse :=
  match req.symbols with
  | none => HandlerResponse.jsonResp 400 "Missing required fields"
  | some symbols =>
    if symbols.length = 0 ∨ truthy req.startDate = false ∨ truthy req.endDate = false then
      HandlerResponse.jsonResp 400 "Missing required fields"
    else
      HandlerResponse.streamResp (handlerStream p symbols)

/-- The contribution of one symbol to the failed-symbols list. -/
def failStep (p : Provider) (s : String) : List String :=
  match fetchSymbol p s with
  | some _ => []
  | none => [s]

/-- The failed-symbols list accumulated over a symbol list. -/
def failedSyms (p : Provider) : List String → List String
  | [] => []
  | s :: rest => failStep p s ++ failedSyms p rest

/-- The tagged rows one symbol contributes to the accumulator. -/
def taggedRows (p : Provider) (s : String) : List RowWithSymbol :=
  match fetchSymbol p s with
  | some result => result.map (fun item => RowWithSymbol.mk item s)
  | none => []

/-- The row accumulator over a symbol list. -/
def accumRows (p : Provider) : List String → List RowWithSymbol
  | [] => []
  | s :: rest => taggedRows p s ++ accumRows p rest

/-- The progress actions the loop writes, described without accumulator
threading. -/
def progressActs (p : Provider) (total : Nat) : List String → Nat → List String → List Action
  | [], _, _ => []
  | s :: rest, done, failed =>
    Action.write (Event.progress (done + 1) total (progressError (failed ++ failStep p s))) ::
      progressActs p total rest (done + 1) (failed ++ failStep p s)

/-- The `(current, total, error)` triples of the progress events in an action
list, in order. -/
def progressList (acts : List Action) : List (Nat × Nat × Option String) :=
  acts.filterMap fun a =>
    match a with
    | Action.write (Event.progress c t e) => some (c, t, e)
    | _ => none

/-- The payloads of the `complete` events in an action list, in order. -/
def completePayloads (acts : List Action) : List String :=
  acts.filterMap fun a =>
    match a with
    | Action.write (Event.complete csv) => some csv
    | _ => none

/-- The payloads of the `error` events in an action list, in order. -/
def errorPayloads (acts : List Action) : List String :=
  acts.filterMap fun a =>
    match a with
    | Action.write (Event.error msg) => some msg
    | _ => none

/-- Whether an action closes the writer. -/
def isClose : Action → Bool
  | Action.close => true
  | _ => false

/-- How many times an action list closes the writer. -/
def closeCount (acts : List Action) : Nat := acts.countP isClose

/-- One await against the clock or the Provider. -/
inductive ProviderCall where
  | delayCall
  | quoteCall (symbol : String)
  | historicalCall (symbol : String)
  deriving DecidableEq

/-- The sequence of awaits the loop performs (route.ts:61–69): each iteration
delays, calls `quote`, and calls `historical` only when the quote came back
non-null without throwing. -/
def callTrace (p : Provider) : List String → List ProviderCall
  | [] => []
  | s :: rest =>
    ProviderCall.delayCall :: ProviderCall.quoteCall s ::
      ((match p.quote s with
        | Except.ok (some _) => [ProviderCall.historicalCall s]
        | _ => []) ++ callTrace p rest)

/-- The number of data rows the Provider yields for a symbol (0 when the
symbol fails). -/
def rowCount (p : Provider) (s : String) : Nat :=
  match fetchSymbol p s with
  | some result => result.length
  | none => 0

/-! ## CSV parsing (for the round-trip property) -/

/-- Split a character list at every occurrence of `sep` (the semantics of a
JS `split` with a one-character separator: empty pieces are kept). -/
def splitOnChar (sep : Char) : List Char → List (List Char)
  | [] => [[]]
  | c :: cs =>
    if c = sep then [] :: splitOnChar sep cs
    else
      match splitOnChar sep cs with
      | [] => [[c]]
      | h :: t => (c :: h) :: t

/-- Parse the quoted cells of a CSV line, having already consumed the opening
quote of the current cell; `cur` is the reversed text read so far of that
cell. -/
def parseCellsFrom : List Char → List Char → Option (List (List Char))
  | [], _ => none
  | c :: rest, cur =>
    if c = '"' then
      match rest with
      | [] => some [cur.reverse]
      | c2 :: rest1 =>
        if c2 = ',' then
          match rest1 with
          | [] => none
          | c3 :: rest2 =>
            if c3 = '"' then
              (parseCellsFrom rest2 []).map (fun cs => cur.reverse :: cs)
            else none
        else none
    else parseCellsFrom rest (c :: cur)

/-- Parse one CSV line of quoted cells. -/
def parseLine (l : List Char) : Option (List String) :=
  match l with
  | [] => none
  | c :: rest =>
    if c = '"' then (parseCellsFrom rest []).map (fun cs => cs.map String.mk)
    else none

/-- Parse every line of a CSV text, failing if any line fails. -/
def parseLines : List (List Char) → Option (List (List String))
  | [] => some []
  | l :: ls =>
    match parseLine l with
    | none => none
    | some cells =>
      match parseLines ls with
      | none => none
      | some rest => some (cells :: rest)

/-- Parse a CSV text back into its table of cells. -/
def parseCsv (s : String) : Option (List (List String)) :=
  parseLines (splitOnChar '\n' s.data)

/-! ## Client Form Controller (`src/app/page.tsx`) -/

/-- Remove the first occurrence of `pat` from a character list (the semantics
of the JS `String.replace(pat, '')` with a string pattern, which replaces
only the first occurrence of the pattern). -/
def removeFirst (pat : List Char) : List Char → List Char
  | [] => []
  | c :: cs =>
    if pat.isPrefixOf (c :: cs) then (c :: cs).drop pat.length
    else c :: removeFirst pat cs

/-- `s.replace(pat, '')` as the client calls it on the event and data lines. -/
def replaceFirst (s pat : String) : String := String.mk (removeFirst pat.data s.data)

/-- A parsed JSON value.  Numeric tokens are kept as raw text; the client
never computes with them beyond storing them in UI state. -/
inductive JsonValue where
  | null
  | bool (b : Bool)
  | num (raw : String)
  | str (s : String)
  | arr (elems : List JsonValue)
  | obj (members : List (String × JsonValue))

/-- JSON whitespace. -/
def isJsonWs (c : Char) : Bool :=
  c = ' ' ∨ c = '\t' ∨ c = '\n' ∨ c = '\r'

/-- Skip JSON whitespace. -/
def skipWs (l : List Char) : List Char := l.dropWhile isJsonWs

/-- Parse the body of a JSON string after the opening quote, returning the
decoded characters and the remaining input.  Common escapes are handled;
`\u` escapes are not (no payload of this system uses them). -/
def parseStringBody : List Char → Option (List Char × List Char)
  | [] => none
  | c :: rest =>
    if c = '"' then some ([], rest)
    else if c = '\\' then
      match rest with
      | [] => none
      | e :: rest1 =>
        let esc : Option Char :=
          if e = '"' then some '"'
          else if e = '\\' then some '\\'
          else if e = '/' then some '/'
          else if e = 'n' then some '\n'
          else if e = 't' then some '\t'
          else if e = 'r' then some '\r'
          else none
        match esc with
        | none => none
        | some d =>
          match parseStringBody rest1 with
          | none => none
          | some (s, rem) => some (d :: s, rem)
    else
      match parseStringBody rest with
      | none => none
      | some (s, rem) => some (c :: s, rem)

/-- A character that may appear in a JSON numeric token. -/
def isNumChar (c : Char) : Bool :=
  c.isDigit ∨ c = '-' ∨ c = '+' ∨ c = '.' ∨ c = 'e' ∨ c = 'E'

/-- Parse a JSON numeric token (kept as raw text). -/
def parseNumToken (l : List Char) : Option (List Char × List Char) :=
  let tok := l.takeWhile isNumChar
  if tok.isEmpty then none else some (tok, l.drop tok.length)

mutual

/-- Modelled from the spec: `JSON.parse` (a JS builtin, outside src/) on one
value — a minimal JSON grammar sufficient for the payload shapes this system
produces.  The fuel argument bounds recursion depth. -/
def parseJsonValue : Nat → List Char → Option (JsonValue × List Char)
  | 0, _ => none
  | _ + 1, [] => none
  | fuel + 1, c :: rest =>
    if c = '"' then
      match parseStringBody rest with
      | none => none
      | some (s, rem) => some (JsonValue.str (String.mk s), rem)
    else if c = '[' then
      match skipWs rest with
      | ']' :: rem => some (JsonValue.arr [], rem)
      | other =>
        match parseJsonItems fuel other with
        | none => none
        | some (elems, rem) => some (JsonValue.arr elems, rem)
    else if c = '{' then
      match skipWs rest with
      | '}' :: rem => some (JsonValue.obj [], rem)
      | other =>
        match parseJsonMembers fuel other with
        | none => none
        | some (members, rem) => some (JsonValue.obj members, rem)
    else if ['t', 'r', 'u', 'e'].isPrefixOf (c :: rest) then
      some (JsonValue.bool true, rest.drop 3)
    else if ['f', 'a', 'l', 's', 'e'].isPrefixOf (c :: rest) then
      some (JsonValue.bool false, rest.drop 4)
    else if ['n', 'u', 'l', 'l'].isPrefixOf (c :: rest) then
      some (JsonValue.null, rest.drop 3)
    else
      match parseNumToken (c :: rest) with
      | none => none
      | some (tok, rem) => some (JsonValue.num (String.mk tok), rem)

/-- Comma-separated JSON array elements, ending at `]`. -/
def parseJsonItems : Nat → List Char → Option (List JsonValue × List Char)
  | 0, _ => none
  | fuel + 1, l =>
    match parseJsonValue fuel l with
    | none => none
    | some (v, rem) =>
      match skipWs rem with
      | ',' :: rem1 =>
        match parseJsonItems fuel (skipWs rem1) with
        | none => none
        | some (vs, rem2) => some (v :: vs, rem2)
      | ']' :: rem1 => some ([v], rem1)
      | _ => none

/-- Comma-separated JSON object members, ending at `}`. -/
def parseJsonMembers : Nat → List Char → Option (List (String × JsonValue) × List Char)
  | 0, _ => none
  | fuel + 1, l =>
    match l with
    | '"' :: rest =>
      match parseStringBody rest with
      | none => none
      | some (k, rem) =>
        match skipWs rem with
        | ':' :: rem1 =>
          match parseJsonValue fuel (skipWs rem1) with
          | none => none
          | some (v, rem2) =>
            match skipWs rem2 with
            | ',' :: rem3 =>
              match parseJsonMembers fuel (skipWs rem3) with
              | none => none
              | some (ms, rem4) => some ((String.mk k, v) :: ms, rem4)
            | '}' :: rem3 => some ([(String.mk k, v)], rem3)
            | _ => none
        | _ => none
    | _ => none

end

/-- Modelled from the spec: `JSON.parse` (a JS builtin, outside src/).
Returns `none` exactly when JS would throw a `SyntaxError`: the input must be
one JSON value followed only by whitespace. -/
def jsonParse (s : String) : Option JsonValue :=
  let l := skipWs s.data
  match parseJsonValue (l.length + 1) l with
  | none => none
  | some (v, rest) => if (skipWs rest).isEmpty then some v else none

/-- What the switch in `handleSubmit` (page.tsx:77–101) does with one parsed
event block. -/
inductive ClientEffect where
  | skip
  | progressUpdate (data : JsonValue)
  | saveFile (filename : String) (payload : JsonValue)
  | throwErr (payload : JsonValue)

/-- Processing of one complete event block (page.tsx:70–101): split the block
on newlines, destructure the first two lines, skip the block when either is
missing or empty, strip the `event: ` / `data: ` prefixes (JS `replace`
removes the first occurrence), `JSON.parse` the data line — a parse failure
throws out of the read loop (`Except.error`) — then dispatch on the event
name; `complete` builds a Blob from the parsed data and saves it as
`stock_historical_data.csv`. -/
def processBlock (block : String) : Except String ClientEffect :=
  match (splitOnChar '\n' block.data).map String.mk with
  | eventLine :: dataLine :: _ =>
    if eventLine = "" ∨ dataLine = "" then Except.ok ClientEffect.skip
    else
      let eventName := replaceFirst eventLine "event: "
      match jsonParse (replaceFirst dataLine "data: ") with
      | none => Except.error "SyntaxError"
      | some data =>
        if eventName = "progress" then Except.ok (ClientEffect.progressUpdate data)
        else if eventName = "complete" then
          Except.ok (ClientEffect.saveFile "stock_historical_data.csv" data)
        else if eventName = "error" then Except.ok (ClientEffect.throwErr data)
        else Except.ok ClientEffect.skip
  | _ => Except.ok ClientEffect.skip

/-! ## Concrete providers and sample data (used by witnesses) -/

/-- A provider on which every call throws. -/
def pAllFail : Provider :=
  { quote := fun _ => Except.error "network down",
    historical := fun _ => Except.error "network down" }

/-- A provider whose quotes all succeed but whose historical data is empty. -/
def pEmptyRows : Provider :=
  { quote := fun _ => Except.ok (some ()),
    historical := fun _ => Except.ok [] }

/-- A sample historical bar with clean cell values. -/
def sampleItem : HistoricalDataItem :=
  { date := "2023-01-03", «open» := "125.07", high := "130.90", low := "124.17",
    close := "125.07", volume := "112117500", adjClose := some "124.27" }

/-- A second sample bar, with `adjClose` absent. -/
def sampleItem2 : HistoricalDataItem :=
  { date := "2023-01-04", «open» := "126.89", high := "128.66", low := "125.08",
    close := "126.36", volume := "89113600", adjClose := none }

/-- A provider that knows only the symbol `AAPL`, with two bars. -/
def pSample : Provider :=
  { quote := fun s => if s = "AAPL" then Except.ok (some ()) else Except.error "Not Found",
    historical := fun s =>
      if s = "AAPL" then Except.ok [sampleItem, sampleItem2] else Except.error "Not Found" }

/-- A cell value that contains neither a quote character nor a newline, so
that its quoted CSV rendering parses back unambiguously. -/
def cleanCell (s : String) : Prop := '"' ∉ s.data ∧ '\n' ∉ s.data

instance (s : String) : Decidable (cleanCell s) := inferInstanceAs (Decidable (_ ∧ _))

/-- Every cell of a table is clean. -/
def cleanTable (tbl : List (List String)) : Prop :=
  ∀ cells ∈ tbl, ∀ s ∈ cells, cleanCell s

instance (tbl : List (List String)) : Decidable (cleanTable tbl) :=
  inferInstanceAs (Decidable (∀ cells ∈ tbl, ∀ s ∈ cells, cleanCell s))

/-- The `(symbol, date)` projection of a row. -/
def symbolDate (r : RowWithSymbol) : String × String := (r.symbol, r.item.date)

/-- The first two columns of a parsed CSV data row. -/
def firstTwoCols (cells : List String) : String × String :=
  (cells.getD 0 "", cells.getD 1 "")

/-- A request whose `startDate` is present but is the empty string. -/
def emptyDateReq : StockDataRequest :=
  { symbols := some ["AAPL"], startDate := some "", endDate := some "2023-01-05",
    interval := "1d" }

/-! ## Characterization of the symbol loop -/

/-- The loop's accumulator threading, unthreaded: the actions are the
progress writes, the final accumulator appends `accumRows`, and the final
failed list appends `failedSyms`. -/
theorem symbolLoop_eq (p : Provider) (total : Nat) (syms : List String)
    (done : Nat) (allResults : List RowWithSymbol) (failed : List String) :
    symbolLoop p total syms done allResults failed =
      (progressActs p total syms done failed,
        allResults ++ accumRows p syms,
        failed ++ failedSyms p syms) := by
  induction syms generalizing done allResults failed with
  | nil => simp [symbolLoop, progressActs, accumRows, failedSyms]
  | cons s rest ih =>
    cases h : fetchSymbol p s with
    | some result =>
      simp [symbolLoop, progressActs, accumRows, failedSyms, taggedRows, failStep, h, ih,
        List.append_assoc]
    | none =>
      simp [symbolLoop, progressActs, accumRows, failedSyms, taggedRows, failStep, h, ih,
        List.append_assoc]

/-- The progress actions number one per symbol. -/
theorem progressActs_length (p : Provider) (total : Nat) (syms : List String)
    (done : Nat) (failed : List String) :
    (progressActs p total syms done failed).length = syms.length := by
  induction syms generalizing done failed with
  | nil => simp [progressActs]
  | cons s rest ih => simp [progressActs, ih]

/-- The `j`-th progress action carries `current = done + 1 + j`, the constant
total, and the error text of the failed symbols accumulated through symbol
`j`. -/
theorem progressActs_getElem (p : Provider) (total : Nat) (syms : List String)
    (done : Nat) (failed : List String) (j : Nat) (hj : j < syms.length) :
    (progressActs p total syms done failed)[j]? =
      some (Action.write (Event.progress (done + 1 + j) total
        (progressError (failed ++ failedSyms p (syms.take (j + 1)))))) := by
  induction syms generalizing done failed j with
  | nil => simp at hj
  | cons s rest ih =>
    cases j with
    | zero => simp [progressActs, failedSyms]
    | succ j =>
      have hj1 : j < rest.length := by simpa using hj
      have := ih (done + 1) (failed ++ failStep p s) j hj1
      simp only [progressActs, List.getElem?_cons_succ, this, List.take_succ_cons, failedSyms,
        List.append_assoc]
      have harith : done + 1 + 1 + j = done + 1 + (j + 1) := by omega
      rw [harith]

/-- `progressList` distributes over append. -/
theorem progressList_append (a b : List Action) :
    progressList (a ++ b) = progressList a ++ progressList b := by
  simp [progressList, List.filterMap_append]

/-- `completePayloads` distributes over append. -/
theorem completePayloads_append (a b : List Action) :
    completePayloads (a ++ b) = completePayloads a ++ completePayloads b := by
  simp [completePayloads, List.filterMap_append]

/-- `errorPayloads` distributes over append. -/
theorem errorPayloads_append (a b : List Action) :
    errorPayloads (a ++ b) = errorPayloads a ++ errorPayloads b := by
  simp [errorPayloads, List.filterMap_append]

/-- The progress actions contain one progress triple per symbol. -/
theorem progressList_progressActs_length (p : Provider) (total : Nat) (syms : List String)
    (done : Nat) (failed : List String) :
    (progressList (progressActs p total syms done failed)).length = syms.length := by
  induction syms generalizing done failed with
  | nil => simp [progressActs, progressList]
  | cons s rest ih => simp [progressActs, progressList, List.filterMap_cons]; exact ih ..

/-- The `j`-th progress triple of the loop. -/
theorem progressList_progressActs_getElem (p : Provider) (total : Nat) (syms : List String)
    (done : Nat) (failed : List String) (j : Nat) (hj : j < syms.length) :
    (progressList (progressActs p total syms done failed))[j]? =
      some (done + 1 + j, total,
        progressError (failed ++ failedSyms p (syms.take (j + 1)))) := by
  induction syms generalizing done failed j with
  | nil => simp at hj
  | cons s rest ih =>
    cases j with
    | zero => simp [progressActs, progressList, List.filterMap_cons, failedSyms]
    | succ j =>
      have hj1 : j < rest.length := by simpa using hj
      have := ih (done + 1) (failed ++ failStep p s) j hj1
      simp only [progressActs, progressList, List.filterMap_cons] at this ⊢
      simp only [List.getElem?_cons_succ, this, List.take_succ_cons, failedSyms,
        List.append_assoc]
      have harith : done + 1 + 1 + j = done + 1 + (j + 1) := by omega
      rw [harith]

/-- The progress actions contain no `complete` event. -/
theorem completePayloads_progressActs (p : Provider) (total : Nat) (syms : List String)
    (done : Nat) (failed : List String) :
    completePayloads (progressActs p total syms done failed) = [] := by
  induction syms generalizing done failed with
  | nil => simp [progressActs, completePayloads]
  | cons s rest ih =>
    simp only [progressActs, completePayloads, List.filterMap_cons]
    exact ih ..

/-- The progress actions contain no `error` event. -/
theorem errorPayloads_progressActs (p : Provider) (total : Nat) (syms : List String)
    (done : Nat) (failed : List String) :
    errorPayloads (progressActs p total syms done failed) = [] := by
  induction syms generalizing done failed with
  | nil => simp [progressActs, errorPayloads]
  | cons s rest ih =>
    simp only [progressActs, errorPayloads, List.filterMap_cons]
    exact ih ..

/-- Writing an event never counts as a close. -/
theorem closeCount_write_cons (e : Event) (acts : List Action) :
    closeCount (Action.write e :: acts) = closeCount acts := by
  simp [closeCount, List.countP_cons, isClose]

/-- `closeCount` adds over append. -/
theorem closeCount_append (a b : List Action) :
    closeCount (a ++ b) = closeCount a + closeCount b := by
  simp [closeCount, List.countP_append]

/-- The progress actions never close the writer. -/
theorem closeCount_progressActs (p : Provider) (total : Nat) (syms : List String)
    (done : Nat) (failed : List String) :
    closeCount (progressActs p total syms done failed) = 0 := by
  induction syms generalizing done failed with
  | nil => simp [progressActs, closeCount]
  | cons s rest ih =>
    rw [progressActs, closeCount_write_cons]
    exact ih ..

/-- The handler's stream body: the progress writes, then the terminal event
and the close. -/
theorem handlerStream_eq (p : Provider) (symbols : List String) :
    handlerStream p symbols =
      progressActs p symbols.length symbols 0 [] ++
        (if (accumRows p symbols).length = 0 then
          [Action.write (Event.error "No valid data retrieved for any symbols"), Action.close]
        else
          [Action.write (Event.complete (csvOf (accumRows p symbols))), Action.close]) := by
  unfold handlerStream runStream
  rw [symbolLoop_eq]
  by_cases h : (accumRows p symbols).length = 0 <;> simp [h]

/-- Empty-accumulator case of the stream body. -/
theorem handlerStream_of_empty (p : Provider) (symbols : List String)
    (h : (accumRows p symbols).length = 0) :
    handlerStream p symbols =
      progressActs p symbols.length symbols 0 [] ++
        [Action.write (Event.error "No valid data retrieved for any symbols"), Action.close] := by
  rw [handlerStream_eq, if_pos h]

/-- Non-empty-accumulator case of the stream body. -/
theorem handlerStream_of_nonempty (p : Provider) (symbols : List String)
    (h : (accumRows p symbols).length ≠ 0) :
    handlerStream p symbols =
      progressActs p symbols.length symbols 0 [] ++
        [Action.write (Event.complete (csvOf (accumRows p symbols))), Action.close] := by
  rw [handlerStream_eq, if_neg h]

/-- The progress triples of the full stream are those of the loop: the
terminal events contribute none. -/
theorem progressList_handlerStream (p : Provider) (symbols : List String) :
    progressList (handlerStream p symbols) =
      progressList (progressActs p symbols.length symbols 0 []) := by
  rw [handlerStream_eq, progressList_append]
  by_cases h : (accumRows p symbols).length = 0 <;> simp [h, progressList]

/-- The accumulator's length is the sum of per-symbol row counts. -/
theorem accumRows_length (p : Provider) (syms : List String) :
    (accumRows p syms).length = (syms.map (rowCount p)).sum := by
  induction syms with
  | nil => simp [accumRows]
  | cons s rest ih =>
    cases h : fetchSymbol p s <;>
      simp [accumRows, taggedRows, rowCount, h, ih]

/-- Failed symbols contribute no rows, so the row-count sum over successful
symbols equals the sum over all symbols. -/
theorem rowCount_sum_filter (p : Provider) (syms : List String) :
    ((syms.filter (fun s => (fetchSymbol p s).isSome)).map (rowCount p)).sum =
      (syms.map (rowCount p)).sum := by
  induction syms with
  | nil => rfl
  | cons s rest ih =>
    cases h : fetchSymbol p s <;> simp [List.filter_cons, h, rowCount, ih]

/-- Every recorded failed symbol occurs in the processed list. -/
theorem mem_of_mem_failedSyms {p : Provider} {S : String} {l : List String}
    (h : S ∈ failedSyms p l) : S ∈ l := by
  induction l with
  | nil => simp [failedSyms] at h
  | cons s rest ih =>
    simp only [failedSyms, List.mem_append] at h
    rcases h with h1 | h2
    · cases hf : fetchSymbol p s <;> simp [failStep, hf] at h1
      simp [h1]
    · exact List.mem_cons_of_mem s (ih h2)

/-- A failing symbol is recorded whenever it has been processed. -/
theorem mem_failedSyms_of_fail {p : Provider} {S : String}
    (hfail : fetchSymbol p S = none) {l : List String} (h : S ∈ l) :
    S ∈ failedSyms p l := by
  induction l with
  | nil => simp at h
  | cons s rest ih =>
    rcases List.mem_cons.mp h with rfl | h2
    · simp [failedSyms, failStep, hfail]
    · simp only [failedSyms, List.mem_append]
      exact Or.inr (ih h2)

/-- A failing symbol is recorded once per occurrence processed. -/
theorem count_failedSyms {p : Provider} {S : String}
    (hfail : fetchSymbol p S = none) (l : List String) :
    (failedSyms p l).count S = l.count S := by
  induction l with
  | nil => simp [failedSyms]
  | cons s rest ih =>
    by_cases hs : s = S
    · subst hs
      simp [failedSyms, failStep, hfail, List.count_append, List.count_cons, ih]
    · cases hf : fetchSymbol p s <;>
        simp [failedSyms, failStep, hf, List.count_append, List.count_cons, ih, hs]

/-- When no processed symbol fails, the failed list is empty. -/
theorem failedSyms_eq_nil {p : Provider} {l : List String}
    (h : ∀ s ∈ l, (fetchSymbol p s).isSome) : failedSyms p l = [] := by
  induction l with
  | nil => rfl
  | cons s rest ih =>
    have hs := h s (List.mem_cons_self s rest)
    cases hf : fetchSymbol p s with
    | none => rw [hf] at hs; simp at hs
    | some result =>
      simp only [failedSyms, failStep, hf]
      exact ih fun x hx => h x (List.mem_cons_of_mem s hx)

/-- When every processed symbol yields an empty row list, the accumulator is
empty. -/
theorem accumRows_eq_nil {p : Provider} {l : List String}
    (h : ∀ s ∈ l, fetchSymbol p s = some []) : accumRows p l = [] := by
  induction l with
  | nil => rfl
  | cons s rest ih =>
    have hs := h s (List.mem_cons_self s rest)
    simp only [accumRows, taggedRows, hs, List.map_nil, List.nil_append]
    exact ih fun x hx => h x (List.mem_cons_of_mem s hx)

/-- Terminal payload facts of the empty-accumulator path: one error event,
no complete event, closing last. -/
theorem payloads_of_empty (p : Provider) (symbols : List String)
    (h : accumRows p symbols = []) :
    errorPayloads (handlerStream p symbols) = ["No valid data retrieved for any symbols"] ∧
    completePayloads (handlerStream p symbols) = [] ∧
    (handlerStream p symbols).getLast? = some Action.close := by
  have hlen : (accumRows p symbols).length = 0 := by rw [h]; rfl
  rw [handlerStream_of_empty p symbols hlen]
  refine ⟨?_, ?_, ?_⟩
  · rw [errorPayloads_append, errorPayloads_progressActs]
    simp [errorPayloads]
  · rw [completePayloads_append, completePayloads_progressActs]
    simp [completePayloads]
  · simp [List.getLast?_append]

/-- Terminal payload facts of the non-empty-accumulator path: one complete
event carrying the CSV, no error event, closing last. -/
theorem payloads_of_nonempty (p : Provider) (symbols : List String)
    (h : accumRows p symbols ≠ []) :
    completePayloads (handlerStream p symbols) = [csvOf (accumRows p symbols)] ∧
    errorPayloads (handlerStream p symbols) = [] ∧
    (handlerStream p symbols).getLast? = some Action.close := by
  have hlen : (accumRows p symbols).length ≠ 0 := by
    intro h0
    exact h (List.length_eq_zero.mp h0)
  rw [handlerStream_of_nonempty p symbols hlen]
  refine ⟨?_, ?_, ?_⟩
  · rw [completePayloads_append, completePayloads_progressActs]
    simp [completePayloads]
  · rw [errorPayloads_append, errorPayloads_progressActs]
    simp [errorPayloads]
  · simp [List.getLast?_append]

/-- One `quote` call is issued per symbol occurrence, in order. -/
theorem callTrace_quotes (p : Provider) (syms : List String) :
    (callTrace p syms).filterMap
      (fun c => match c with | ProviderCall.quoteCall s => some s | _ => none) = syms := by
  induction syms with
  | nil => rfl
  | cons s rest ih =>
    cases hq : p.quote s with
    | error e =>
      simp [callTrace, List.filterMap_cons, List.filterMap_append, hq, ih]
    | ok o =>
      cases o <;> simp [callTrace, List.filterMap_cons, List.filterMap_append, hq, ih]

/-- One delay is awaited per symbol occurrence. -/
theorem callTrace_delay_count (p : Provider) (syms : List String) :
    (callTrace p syms).count ProviderCall.delayCall = syms.length := by
  induction syms with
  | nil => rfl
  | cons s rest ih =>
    cases hq : p.quote s with
    | error e =>
      simp [callTrace, List.count_cons, List.count_append, hq, ih]
    | ok o =>
      cases o <;> simp [callTrace, List.count_cons, List.count_append, hq, ih]

/-- The accumulator is the flat map of the per-symbol tagged rows, in input
order. -/
theorem accumRows_eq_flatMap (p : Provider) (syms : List String) :
    accumRows p syms = syms.flatMap (taggedRows p) := by
  induction syms with
  | nil => rfl
  | cons s rest ih => simp [accumRows, List.flatMap_cons, ih]

/-! ## CSV serialization: inversion lemmas -/

/-- Unfolding of `splitOnChar` on a cons. -/
theorem splitOnChar_cons (sep c : Char) (cs : List Char) :
    splitOnChar sep (c :: cs) =
      if c = sep then [] :: splitOnChar sep cs
      else
        match splitOnChar sep cs with
        | [] => [[c]]
        | h :: t => (c :: h) :: t := rfl

/-- Unfolding of `parseCellsFrom` on a cons. -/
theorem parseCellsFrom_cons (c : Char) (l cur : List Char) :
    parseCellsFrom (c :: l) cur =
      (if c = '"' then
        match l with
        | [] => some [cur.reverse]
        | c2 :: rest1 =>
          if c2 = ',' then
            match rest1 with
            | [] => none
            | c3 :: rest2 =>
              if c3 = '"' then
                (parseCellsFrom rest2 []).map (fun cs => cur.reverse :: cs)
              else none
          else none
      else parseCellsFrom l (c :: cur)) := by
  rw [parseCellsFrom.eq_def]

/-- Splitting a separator-free list yields that single piece. -/
theorem splitOnChar_of_not_mem {sep : Char} {l : List Char} (h : sep ∉ l) :
    splitOnChar sep l = [l] := by
  induction l with
  | nil => rfl
  | cons c cs ih =>
    have hc : ¬c = sep := fun e => h (e ▸ List.mem_cons_self c cs)
    have hcs : sep ∉ cs := fun m => h (List.mem_cons_of_mem c m)
    simp only [splitOnChar, if_neg hc, ih hcs]

/-- Splitting past a separator-free piece peels it off. -/
theorem splitOnChar_append {sep : Char} {l : List Char} (h : sep ∉ l) (rest : List Char) :
    splitOnChar sep (l ++ sep :: rest) = l :: splitOnChar sep rest := by
  induction l with
  | nil => simp [splitOnChar]
  | cons c cs ih =>
    have hc : ¬c = sep := fun e => h (e ▸ List.mem_cons_self c cs)
    have hcs : sep ∉ cs := fun m => h (List.mem_cons_of_mem c m)
    rw [List.cons_append, splitOnChar_cons, if_neg hc, ih hcs]

/-- Splitting inverts joining when no piece contains the separator. -/
theorem splitOnChar_joinSep {sep : Char} :
    ∀ (lines : List (List Char)), lines ≠ [] → (∀ l ∈ lines, sep ∉ l) →
      splitOnChar sep (joinSep [sep] lines) = lines := by
  intro lines
  induction lines with
  | nil => intro h; exact absurd rfl h
  | cons l ls ih =>
    intro _ hmem
    cases ls with
    | nil =>
      simp only [joinSep]
      exact splitOnChar_of_not_mem (hmem l (List.mem_cons_self l []))
    | cons l2 ls2 =>
      have h1 : sep ∉ l := hmem l (List.mem_cons_self ..)
      have h2 := ih (by simp) fun x hx => hmem x (List.mem_cons_of_mem l hx)
      simp only [joinSep]
      rw [show l ++ [sep] ++ joinSep [sep] (l2 :: ls2) =
        l ++ sep :: joinSep [sep] (l2 :: ls2) by simp]
      rw [splitOnChar_append h1, h2]

/-- The cell parser consumes a quote-free cell up to the closing quote. -/
theorem parseCellsFrom_cell {cell : List Char} (h : '"' ∉ cell) :
    ∀ (cur rest : List Char),
      parseCellsFrom (cell ++ '"' :: rest) cur =
        parseCellsFrom ('"' :: rest) (cell.reverse ++ cur) := by
  induction cell with
  | nil => intro cur rest; simp
  | cons c cs ih =>
    intro cur rest
    have hc : ¬c = '"' := fun e => h (e ▸ List.mem_cons_self c cs)
    have hcs : '"' ∉ cs := fun m => h (List.mem_cons_of_mem c m)
    rw [List.cons_append, parseCellsFrom_cons, if_neg hc, ih hcs]
    simp [List.append_assoc]

/-- Rebuilding a string from its character data. -/
theorem mk_data_eq (s : String) : String.mk s.data = s := rfl

/-- Parsing inverts rendering for one line of quote-free cells. -/
theorem renderLine_parse_aux :
    ∀ (cells : List String), cells ≠ [] → (∀ s ∈ cells, '"' ∉ s.data) →
      ∃ t, renderLine cells = '"' :: t ∧
        parseCellsFrom t [] = some (cells.map String.data) := by
  intro cells
  induction cells with
  | nil => intro h; exact absurd rfl h
  | cons s rest ih =>
    intro _ hmem
    have hs : '"' ∉ s.data := hmem s (List.mem_cons_self ..)
    cases rest with
    | nil =>
      refine ⟨s.data ++ ['"'], ?_, ?_⟩
      · simp [renderLine, joinSep, renderCell]
      · rw [show s.data ++ ['"'] = s.data ++ '"' :: [] from rfl, parseCellsFrom_cell hs]
        simp [parseCellsFrom]
    | cons s2 rest2 =>
      obtain ⟨t, ht, hp⟩ := ih (by simp) fun x hx => hmem x (List.mem_cons_of_mem s hx)
      refine ⟨s.data ++ '"' :: ',' :: '"' :: t, ?_, ?_⟩
      · simp only [renderLine, List.map_cons, joinSep, renderCell] at ht ⊢
        rw [ht]
        simp
      · rw [parseCellsFrom_cell hs]
        simp only [parseCellsFrom, if_pos rfl]
        rw [hp]
        simp

/-- Parsing inverts rendering for a full line. -/
theorem parseLine_renderLine {cells : List String} (hne : cells ≠ [])
    (h : ∀ s ∈ cells, '"' ∉ s.data) :
    parseLine (renderLine cells) = some cells := by
  obtain ⟨t, ht, hp⟩ := renderLine_parse_aux cells hne h
  have hid : List.map (String.mk ∘ String.data) cells = cells := by
    conv_rhs => rw [← List.map_id cells]
    exact List.map_congr_left fun a _ => rfl
  rw [ht]
  simp only [parseLine, if_pos rfl, hp]
  simp [List.map_map, hid]

/-- Members of a join come from the separator or from one of the pieces. -/
theorem mem_joinSep {sep : List Char} :
    ∀ {ls : List (List Char)} {x : Char}, x ∈ joinSep sep ls →
      x ∈ sep ∨ ∃ l ∈ ls, x ∈ l := by
  intro ls
  induction ls with
  | nil => intro x hx; simp [joinSep] at hx
  | cons l ls2 ih =>
    intro x hx
    cases ls2 with
    | nil =>
      simp only [joinSep] at hx
      exact Or.inr ⟨l, List.mem_cons_self .., hx⟩
    | cons l2 ls3 =>
      simp only [joinSep, List.append_assoc, List.mem_append] at hx
      rcases hx with hx | hx | hx
      · exact Or.inr ⟨l, List.mem_cons_self .., hx⟩
      · exact Or.inl hx
      · rcases ih hx with hs | ⟨m, hm, hxm⟩
        · exact Or.inl hs
        · exact Or.inr ⟨m, List.mem_cons_of_mem l hm, hxm⟩

/-- A rendered line of newline-free cells contains no newline. -/
theorem newline_not_mem_renderLine {cells : List String}
    (h : ∀ s ∈ cells, '\n' ∉ s.data) : '\n' ∉ renderLine cells := by
  intro hx
  rcases mem_joinSep hx with hsep | ⟨l, hl, hxl⟩
  · exact absurd hsep (by decide)
  · obtain ⟨s, hs, rfl⟩ := List.mem_map.mp hl
    have hnq : ('\n' : Char) ≠ '"' := by decide
    unfold renderCell at hxl
    rcases List.mem_cons.mp hxl with h1 | h12
    · exact hnq h1
    · rcases List.mem_append.mp h12 with h2 | h3
      · exact h s hs h2
      · exact hnq (List.mem_singleton.mp h3)

/-- Parsing each rendered line of a table of nonempty quote-free rows
recovers the table. -/
theorem parseLines_render {tbl : List (List String)}
    (h : ∀ cells ∈ tbl, cells ≠ [] ∧ ∀ s ∈ cells, '"' ∉ s.data) :
    parseLines (tbl.map renderLine) = some tbl := by
  induction tbl with
  | nil => rfl
  | cons cells rest ih =>
    have hc := h cells (List.mem_cons_self ..)
    have hr := ih fun x hx => h x (List.mem_cons_of_mem cells hx)
    simp [parseLines, parseLine_renderLine hc.1 hc.2, hr]

/-- Every row of the emitted CSV table is a nonempty cell list. -/
theorem csvTable_cells_ne_nil (rows : List RowWithSymbol) :
    ∀ cells ∈ csvTable rows, cells ≠ [] := by
  intro cells hc
  rcases List.mem_cons.mp hc with rfl | hm
  · simp [fields]
  · obtain ⟨r, _, rfl⟩ := List.mem_map.mp hm
    simp [rowCells]

/-- Round trip: parsing the emitted CSV text recovers the emitted table,
whenever every cell is clean (no quote, no newline). -/
theorem parseCsv_csvOf {rows : List RowWithSymbol}
    (h : cleanTable (csvTable rows)) :
    parseCsv (csvOf rows) = some (csvTable rows) := by
  unfold parseCsv csvOf csvChars
  rw [mk_data_eq]
  rw [splitOnChar_joinSep ((csvTable rows).map renderLine) (by simp [csvTable]) ?_]
  · exact parseLines_render fun cells hc =>
      ⟨csvTable_cells_ne_nil rows cells hc, fun s hs => (h cells hc s hs).1⟩
  · intro l hl
    obtain ⟨cells, hc, rfl⟩ := List.mem_map.mp hl
    exact newline_not_mem_renderLine fun s hs => (h cells hc s hs).2

/-- The full stream body of `runStream` for an arbitrary serializer. -/
theorem runStream_eq (p : Provider) (symbols : List String)
    (serialize : List RowWithSymbol → Except String String) :
    runStream p symbols serialize =
      progressActs p symbols.length symbols 0 [] ++
        (if (accumRows p symbols).length = 0 then
          [Action.write (Event.error "No valid data retrieved for any symbols"), Action.close]
        else
          match serialize (accumRows p symbols) with
          | Except.ok csv => [Action.write (Event.complete csv), Action.close]
          | Except.error msg => [Action.write (Event.error msg), Action.close]) := by
  unfold runStream
  rw [symbolLoop_eq]
  by_cases h : (accumRows p symbols).length = 0
  · simp [h]
  · cases hs : serialize (accumRows p symbols) <;> simp [h, hs]

/-- Falsy optional strings are exactly the missing and the empty ones. -/
theorem truthy_eq_false_iff (o : Option String) : truthy o = false ↔ o.getD "" = "" := by
  cases o <;> simp [truthy]

/-- A non-empty failed list renders as the `Failed to fetch` message. -/
theorem progressError_of_ne_nil {l : List String} (h : l ≠ []) :
    progressError l = some ("Failed to fetch: " ++ String.intercalate ", " l) := by
  unfold progressError
  rw [if_pos (List.length_pos.mpr h)]

/-! ## The claims -/

/-- C1: for every request whose symbol list is non-empty and where at least
one symbol yields provider rows, the handler emits exactly one `complete`
event, whose payload is the CSV of the accumulator with the fixed 8-column
header `[symbol, date, open, high, low, close, volume, adjClose]`, and whose
data-row count equals the sum of the row counts returned by the Provider for
the successful symbols. -/
theorem complete_event_unique_with_csv (p : Provider) (symbols : List String)
    (h : ∃ s ∈ symbols, rowCount p s ≠ 0) :
    completePayloads (handlerStream p symbols) = [csvOf (accumRows p symbols)] ∧
    errorPayloads (handlerStream p symbols) = [] ∧
    (csvTable (accumRows p symbols)).head? = some fields ∧
    (csvTable (accumRows p symbols)).tail.length =
      ((symbols.filter (fun s => (fetchSymbol p s).isSome)).map (rowCount p)).sum := by
  have hne : accumRows p symbols ≠ [] := by
    intro h0
    obtain ⟨s, hs, hc⟩ := h
    have hlen := accumRows_length p symbols
    rw [h0] at hlen
    have hle : rowCount p s ≤ (symbols.map (rowCount p)).sum :=
      List.single_le_sum (fun _ _ => Nat.zero_le _) _ (List.mem_map_of_mem (rowCount p) hs)
    simp at hlen
    omega
  obtain ⟨hcp, herr, _⟩ := payloads_of_nonempty p symbols hne
  refine ⟨hcp, herr, rfl, ?_⟩
  simp only [csvTable, List.tail_cons, List.length_map, rowCount_sum_filter]
  exact accumRows_length p symbols

/-- Witness for C1 at a concrete provider and request. -/
theorem complete_event_unique_with_csv_witness :
    (∃ s ∈ ["AAPL", "BAD"], rowCount pSample s ≠ 0) ∧
    (completePayloads (handlerStream pSample ["AAPL", "BAD"]) =
        [csvOf (accumRows pSample ["AAPL", "BAD"])] ∧
      errorPayloads (handlerStream pSample ["AAPL", "BAD"]) = [] ∧
      (csvTable (accumRows pSample ["AAPL", "BAD"])).head? = some fields ∧
      (csvTable (accumRows pSample ["AAPL", "BAD"])).tail.length =
        ((["AAPL", "BAD"].filter (fun s => (fetchSymbol pSample s).isSome)).map
          (rowCount pSample)).sum) :=
  ⟨⟨"AAPL", List.mem_cons_self .., by decide⟩,
    complete_event_unique_with_csv pSample ["AAPL", "BAD"]
      ⟨"AAPL", List.mem_cons_self .., by decide⟩⟩

/-- C3: for every request with a non-empty symbol list of length n that
passes validation, the handler emits exactly n progress events, the j-th
(0-based) carrying `current = j + 1` — hence `current` runs 1..n strictly
increasing by 1 — and `total = n` in every event. -/
theorem progress_events_count_and_fields (p : Provider) (symbols : List String)
    (_hne : symbols ≠ []) :
    (progressList (handlerStream p symbols)).length = symbols.length ∧
    ∀ j, j < symbols.length →
      (progressList (handlerStream p symbols))[j]? =
        some (j + 1, symbols.length,
          progressError (failedSyms p (symbols.take (j + 1)))) := by
  constructor
  · rw [progressList_handlerStream, progressList_progressActs_length]
  · intro j hj
    rw [progressList_handlerStream]
    have h := progressList_progressActs_getElem p symbols.length symbols 0 [] j hj
    have harith : 0 + 1 + j = j + 1 := by omega
    rw [harith] at h
    simpa using h

/-- Witness for C3 at a concrete provider and request. -/
theorem progress_events_count_and_fields_witness :
    (["AAPL", "BAD"] : List String) ≠ [] ∧
    ((progressList (handlerStream pSample ["AAPL", "BAD"])).length = 2 ∧
      ∀ j, j < 2 →
        (progressList (handlerStream pSample ["AAPL", "BAD"]))[j]? =
          some (j + 1, 2,
            progressError (failedSyms pSample (["AAPL", "BAD"].take (j + 1))))) :=
  ⟨by decide, progress_events_count_and_fields pSample ["AAPL", "BAD"] (by decide)⟩

/-- C4: for every request whose row accumulator is empty after all symbols
are processed, the handler emits exactly one error event with message
`No valid data retrieved for any symbols`, emits no complete event, and
closes the stream without producing any CSV. -/
theorem total_failure_single_error_event (p : Provider) (symbols : List String)
    (h : accumRows p symbols = []) :
    errorPayloads (handlerStream p symbols) = ["No valid data retrieved for any symbols"] ∧
    completePayloads (handlerStream p symbols) = [] ∧
    (handlerStream p symbols).getLast? = some Action.close :=
  payloads_of_empty p symbols h

/-- Witness for C4 at a provider on which every call throws. -/
theorem total_failure_single_error_event_witness :
    accumRows pAllFail ["AAPL", "MSFT"] = [] ∧
    (errorPayloads (handlerStream pAllFail ["AAPL", "MSFT"]) =
        ["No valid data retrieved for any symbols"] ∧
      completePayloads (handlerStream pAllFail ["AAPL", "MSFT"]) = [] ∧
      (handlerStream pAllFail ["AAPL", "MSFT"]).getLast? = some Action.close) :=
  ⟨by decide, total_failure_single_error_event pAllFail ["AAPL", "MSFT"] (by decide)⟩

/-- C5: a failing symbol is recorded and the loop continues; every progress
event from its first occurrence onward carries an error field whose
`Failed to fetch` list contains it, and no earlier progress event's failed
list mentions it. -/
theorem failed_symbol_tracked_in_progress (p : Provider) (symbols : List String)
    (S : String) (i : Nat)
    (hi : symbols[i]? = some S)
    (hfirst : ∀ k, k < i → symbols[k]? ≠ some S)
    (hfail : fetchSymbol p S = none) :
    S ∈ failedSyms p symbols ∧
    (progressList (handlerStream p symbols)).length = symbols.length ∧
    (∀ j, i ≤ j → j < symbols.length →
      S ∈ failedSyms p (symbols.take (j + 1)) ∧
      (progressList (handlerStream p symbols))[j]? =
        some (j + 1, symbols.length,
          some ("Failed to fetch: " ++
            String.intercalate ", " (failedSyms p (symbols.take (j + 1)))))) ∧
    (∀ j, j < i → S ∉ failedSyms p (symbols.take (j + 1))) := by
  have hmemS : S ∈ symbols := List.mem_iff_getElem?.mpr ⟨i, hi⟩
  refine ⟨mem_failedSyms_of_fail hfail hmemS, ?_, ?_, ?_⟩
  · rw [progressList_handlerStream, progressList_progressActs_length]
  · intro j hij hj
    have hmemTake : S ∈ symbols.take (j + 1) := by
      refine List.mem_iff_getElem?.mpr ⟨i, ?_⟩
      rw [List.getElem?_take_of_lt (by omega)]
      exact hi
    have hmemFailed : S ∈ failedSyms p (symbols.take (j + 1)) :=
      mem_failedSyms_of_fail hfail hmemTake
    refine ⟨hmemFailed, ?_⟩
    rw [progressList_handlerStream]
    have h := progressList_progressActs_getElem p symbols.length symbols 0 [] j hj
    have harith : 0 + 1 + j = j + 1 := by omega
    rw [harith] at h
    have hne : failedSyms p (symbols.take (j + 1)) ≠ [] := by
      intro h0
      rw [h0] at hmemFailed
      simp at hmemFailed
    rw [h]
    simp [progressError_of_ne_nil hne]
  · intro j hji hmem
    have hmemTake : S ∈ symbols.take (j + 1) := mem_of_mem_failedSyms hmem
    obtain ⟨k, hk⟩ := List.mem_iff_getElem?.mp hmemTake
    obtain ⟨hklt, hkeq⟩ := List.getElem?_eq_some.mp hk
    have hkj : k < j + 1 := by
      have := List.length_take (j + 1) symbols
      omega
    have hkS : symbols[k]? = some S := by
      rw [← List.getElem?_take_of_lt hkj]
      exact hk
    exact hfirst k (by omega) hkS

/-- Witness for C5: `BAD` fails at index 1; the first progress event does not
mention it, the second does. -/
theorem failed_symbol_tracked_in_progress_witness :
    ((["AAPL", "BAD"] : List String)[1]? = some "BAD" ∧
      (∀ k, k < 1 → (["AAPL", "BAD"] : List String)[k]? ≠ some "BAD") ∧
      fetchSymbol pSample "BAD" = none) ∧
    ("BAD" ∈ failedSyms pSample ["AAPL", "BAD"] ∧
      (progressList (handlerStream pSample ["AAPL", "BAD"])).length = 2 ∧
      (∀ j, 1 ≤ j → j < 2 →
        "BAD" ∈ failedSyms pSample (["AAPL", "BAD"].take (j + 1)) ∧
        (progressList (handlerStream pSample ["AAPL", "BAD"]))[j]? =
          some (j + 1, 2,
            some ("Failed to fetch: " ++
              String.intercalate ", " (failedSyms pSample (["AAPL", "BAD"].take (j + 1)))))) ∧
      (∀ j, j < 1 → "BAD" ∉ failedSyms pSample (["AAPL", "BAD"].take (j + 1)))) :=
  ⟨⟨by decide, by decide, by decide⟩,
    failed_symbol_tracked_in_progress pSample ["AAPL", "BAD"] "BAD" 1
      (by decide) (by decide) (by decide)⟩

/-- C8: on every exit path of the streaming body — successful completion,
total-failure error, or a serializer that throws (the unexpected
orchestration exception) — the writer is closed exactly once, and the close
is the final action. -/
theorem stream_always_closed_once (p : Provider) (symbols : List String)
    (serialize : List RowWithSymbol → Except String String) :
    closeCount (runStream p symbols serialize) = 1 ∧
    (runStream p symbols serialize).getLast? = some Action.close := by
  have hterm : ∀ (e : Event),
      closeCount (progressActs p symbols.length symbols 0 [] ++
        [Action.write e, Action.close]) = 1 ∧
      (progressActs p symbols.length symbols 0 [] ++
        [Action.write e, Action.close]).getLast? = some Action.close := by
    intro e
    constructor
    · rw [closeCount_append, closeCount_progressActs, closeCount_write_cons]
      rfl
    · simp [List.getLast?_append]
  rw [runStream_eq]
  by_cases h : (accumRows p symbols).length = 0
  · rw [if_pos h]
    exact hterm _
  · rw [if_neg h]
    cases hs : serialize (accumRows p symbols) <;> exact hterm _

/-- C9: a symbol whose quote succeeds but whose historical call returns no
rows is counted as processed yet never recorded as failed: when this happens
for all symbols, every progress event's error field is absent, yet the
terminal `No valid data retrieved for any symbols` error event fires and no
complete event is emitted. -/
theorem empty_rows_processed_not_failed (p : Provider) (symbols : List String)
    (h : ∀ s ∈ symbols, p.quote s = Except.ok (some ()) ∧ p.historical s = Except.ok []) :
    failedSyms p symbols = [] ∧
    accumRows p symbols = [] ∧
    (progressList (handlerStream p symbols)).length = symbols.length ∧
    (∀ x ∈ progressList (handlerStream p symbols), x.2.2 = none) ∧
    errorPayloads (handlerStream p symbols) = ["No valid data retrieved for any symbols"] ∧
    completePayloads (handlerStream p symbols) = [] := by
  have hfetch : ∀ s ∈ symbols, fetchSymbol p s = some [] := by
    intro s hs
    obtain ⟨hq, hh⟩ := h s hs
    unfold fetchSymbol
    rw [hq, hh]
  have hfailed : failedSyms p symbols = [] :=
    failedSyms_eq_nil fun s hs => by rw [hfetch s hs]; rfl
  have haccum : accumRows p symbols = [] := accumRows_eq_nil hfetch
  obtain ⟨he, hc, _⟩ := payloads_of_empty p symbols haccum
  refine ⟨hfailed, haccum, ?_, ?_, he, hc⟩
  · rw [progressList_handlerStream, progressList_progressActs_length]
  · intro x hx
    rw [progressList_handlerStream] at hx
    obtain ⟨j, hj⟩ := List.mem_iff_getElem?.mp hx
    have hjlt : j < symbols.length := by
      obtain ⟨hlt, _⟩ := List.getElem?_eq_some.mp hj
      rwa [progressList_progressActs_length] at hlt
    have hch := progressList_progressActs_getElem p symbols.length symbols 0 [] j hjlt
    have hx2 : some x = some (0 + 1 + j, symbols.length,
        progressError ([] ++ failedSyms p (symbols.take (j + 1)))) := by
      rw [← hj, hch]
    have hxeq := Option.some_inj.mp hx2
    have hpre : failedSyms p (symbols.take (j + 1)) = [] :=
      failedSyms_eq_nil fun s hs => by
        rw [hfetch s (List.take_subset (j + 1) symbols hs)]; rfl
    rw [hxeq]
    simp [hpre, progressError]

/-- Witness for C9: all quotes succeed with empty history. -/
theorem empty_rows_processed_not_failed_witness :
    (∀ s ∈ (["AAPL"] : List String), pEmptyRows.quote s = Except.ok (some ()) ∧
      pEmptyRows.historical s = Except.ok []) ∧
    (failedSyms pEmptyRows ["AAPL"] = [] ∧
      accumRows pEmptyRows ["AAPL"] = [] ∧
      (progressList (handlerStream pEmptyRows ["AAPL"])).length = 1 ∧
      (∀ x ∈ progressList (handlerStream pEmptyRows ["AAPL"]), x.2.2 = none) ∧
      errorPayloads (handlerStream pEmptyRows ["AAPL"]) =
        ["No valid data retrieved for any symbols"] ∧
      completePayloads (handlerStream pEmptyRows ["AAPL"]) = []) :=
  ⟨fun _ _ => ⟨rfl, rfl⟩,
    empty_rows_processed_not_failed pEmptyRows ["AAPL"] fun _ _ => ⟨rfl, rfl⟩⟩

/-- C10: duplicate occurrences are processed independently: one delay, one
quote call and one progress event per occurrence, and an always-failing
symbol is recorded in the failed list once per occurrence — in every prefix
and in the final list. -/
theorem duplicate_occurrences_processed_independently (p : Provider)
    (symbols : List String) (S : String) (hfail : fetchSymbol p S = none) :
    (progressList (handlerStream p symbols)).length = symbols.length ∧
    (failedSyms p symbols).count S = symbols.count S ∧
    (∀ j, j < symbols.length →
      (failedSyms p (symbols.take (j + 1))).count S = (symbols.take (j + 1)).count S) ∧
    (callTrace p symbols).filterMap
      (fun c => match c with | ProviderCall.quoteCall s => some s | _ => none) = symbols ∧
    (callTrace p symbols).count ProviderCall.delayCall = symbols.length := by
  refine ⟨?_, count_failedSyms hfail symbols, fun j _ => count_failedSyms hfail _,
    callTrace_quotes p symbols, callTrace_delay_count p symbols⟩
  rw [progressList_handlerStream, progressList_progressActs_length]

/-- Witness for C10: `AAPL` repeated three times against a failing provider
is recorded three times. -/
theorem duplicate_occurrences_processed_independently_witness :
    fetchSymbol pAllFail "AAPL" = none ∧
    ((progressList (handlerStream pAllFail ["AAPL", "AAPL", "AAPL"])).length = 3 ∧
      (failedSyms pAllFail ["AAPL", "AAPL", "AAPL"]).count "AAPL" =
        (["AAPL", "AAPL", "AAPL"] : List String).count "AAPL" ∧
      (∀ j, j < 3 →
        (failedSyms pAllFail (["AAPL", "AAPL", "AAPL"].take (j + 1))).count "AAPL" =
          ((["AAPL", "AAPL", "AAPL"] : List String).take (j + 1)).count "AAPL") ∧
      (callTrace pAllFail ["AAPL", "AAPL", "AAPL"]).filterMap
        (fun c => match c with | ProviderCall.quoteCall s => some s | _ => none) =
          ["AAPL", "AAPL", "AAPL"] ∧
      (callTrace pAllFail ["AAPL", "AAPL", "AAPL"]).count ProviderCall.delayCall = 3) :=
  ⟨by decide,
    duplicate_occurrences_processed_independently pAllFail ["AAPL", "AAPL", "AAPL"] "AAPL"
      (by decide)⟩

/-- C6 counterexample: a parseable request whose `startDate` is present (not
missing) but equal to the empty string — so by the claim a 200 streaming
response should begin — is in fact rejected with 400, because the handler
tests JS truthiness, under which `""` is falsy. -/
theorem validation_claim_counterexample :
    emptyDateReq.symbols = some ["AAPL"] ∧
    emptyDateReq.startDate = some "" ∧
    emptyDateReq.endDate = some "2023-01-05" ∧
    POST pAllFail emptyDateReq = HandlerResponse.jsonResp 400 "Missing required fields" :=
  ⟨rfl, rfl, rfl, by decide⟩

/-- C6 (amended): the handler responds 400 `Missing required fields` exactly
when the symbols field is empty or missing, or the startDate or endDate is
missing or the empty string; every other request — whatever its interval
value — gets the 200 streaming response. -/
theorem validation_amended (p : Provider) (req : StockDataRequest) :
    if req.symbols.getD [] = [] ∨ req.startDate.getD "" = "" ∨ req.endDate.getD "" = "" then
      POST p req = HandlerResponse.jsonResp 400 "Missing required fields"
    else
      POST p req = HandlerResponse.streamResp (handlerStream p (req.symbols.getD [])) := by
  rcases req with ⟨syms, sd, ed, iv⟩
  cases syms with
  | none => simp [POST]
  | some l =>
    have hiff : (l.length = 0 ∨ truthy sd = false ∨ truthy ed = false) ↔
        (l = [] ∨ sd.getD "" = "" ∨ ed.getD "" = "") := by
      rw [List.length_eq_zero, truthy_eq_false_iff, truthy_eq_false_iff]
    have hunfold : POST p ⟨some l, sd, ed, iv⟩ =
        (if l.length = 0 ∨ truthy sd = false ∨ truthy ed = false then
          HandlerResponse.jsonResp 400 "Missing required fields"
        else HandlerResponse.streamResp (handlerStream p l)) := rfl
    by_cases hcond : l = [] ∨ sd.getD "" = "" ∨ ed.getD "" = ""
    · rw [if_pos (by simpa using hcond), hunfold, if_pos (hiff.mpr hcond)]
    · rw [if_neg (by simpa using hcond), hunfold, if_neg (fun hc => hcond (hiff.mp hc))]
      rfl

/-- C7: the accumulated row sequence is the input-ordered flat map of the
provider-ordered tagged rows, every row tagged with its symbol; parsing the
emitted CSV recovers the emitted table, and re-extracting the symbol and date
columns of its data rows reproduces exactly that tagging and ordering. -/
theorem accumulation_order_and_roundtrip (p : Provider) (symbols : List String)
    (h : cleanTable (csvTable (accumRows p symbols))) :
    (symbolLoop p symbols.length symbols 0 [] []).2.1 = symbols.flatMap (taggedRows p) ∧
    parseCsv (csvOf (accumRows p symbols)) = some (csvTable (accumRows p symbols)) ∧
    (parseCsv (csvOf (accumRows p symbols))).map (fun tbl => tbl.tail.map firstTwoCols) =
      some ((symbols.flatMap (taggedRows p)).map symbolDate) := by
  have hflat : accumRows p symbols = symbols.flatMap (taggedRows p) :=
    accumRows_eq_flatMap p symbols
  have hrt := parseCsv_csvOf h
  have hproj : (csvTable (accumRows p symbols)).tail.map firstTwoCols =
      (accumRows p symbols).map symbolDate := by
    simp only [csvTable, List.tail_cons, List.map_map]
    exact List.map_congr_left fun r _ => rfl
  refine ⟨?_, hrt, ?_⟩
  · rw [symbolLoop_eq]
    simpa using hflat
  · rw [hrt]
    show some ((csvTable (accumRows p symbols)).tail.map firstTwoCols) = _
    rw [hproj, hflat]

/-- Witness for C7 at a concrete provider and request with clean cells. -/
theorem accumulation_order_and_roundtrip_witness :
    cleanTable (csvTable (accumRows pSample ["AAPL", "BAD"])) ∧
    ((symbolLoop pSample 2 ["AAPL", "BAD"] 0 [] []).2.1 =
        (["AAPL", "BAD"] : List String).flatMap (taggedRows pSample) ∧
      parseCsv (csvOf (accumRows pSample ["AAPL", "BAD"])) =
        some (csvTable (accumRows pSample ["AAPL", "BAD"])) ∧
      (parseCsv (csvOf (accumRows pSample ["AAPL", "BAD"]))).map
          (fun tbl => tbl.tail.map firstTwoCols) =
        some (((["AAPL", "BAD"] : List String).flatMap (taggedRows pSample)).map symbolDate)) :=
  ⟨by decide, accumulation_order_and_roundtrip pSample ["AAPL", "BAD"] (by decide)⟩

/-- C2 (code bug): on a genuine `complete` block the client's `JSON.parse`
of the data line throws — the server's raw CSV payload is never valid JSON,
and only the first CSV line even reaches the parser — so the block aborts the
read loop with an error instead of saving `stock_historical_data.csv`. -/
theorem complete_block_json_parse_throws :
    processBlock ("event: complete\ndata: " ++
        csvOf [RowWithSymbol.mk sampleItem "AAPL"]) =
      Except.error "SyntaxError" := by
  rfl

end StockData
